import Mathlib

/-!
Verification of the RemMe bookmark manager's persistence and
normalization layer (src/db.js and src/App.jsx), shallowly embedded in Lean.

JavaScript strings are modelled as Lean `String`; the JS string methods
`trim`, `toLowerCase` and the regex test `/^https?:\/\//i` are embedded as
explicit functions over the character list. Dynamic JS values appearing in
imported JSON records are modelled by the inductive `JSVal`. The IndexedDB
object store (keyed by `id` via `keyPath: 'id'`) is modelled as a list of
records; `store.add`, `store.put` and `store.delete` follow IndexedDB
semantics: `add` rejects an existing key with a ConstraintError, `put`
upserts, `delete` is idempotent.
-/

namespace RemMe

/-- Whitespace recognised by the embedded JS `String.prototype.trim`
(ASCII whitespace; the source only ever trims user-typed text). -/
def jsIsWs (c : Char) : Bool :=
  c = ' ' || c = '\t' || c = '\n' || c = '\r' || c = '\x0b' || c = '\x0c'

/-- Embeds `String.prototype.trim`: drop leading and trailing whitespace. -/
def jsTrim (s : String) : String :=
  ⟨((s.data.dropWhile jsIsWs).reverse.dropWhile jsIsWs).reverse⟩

/-- Embeds `String.prototype.toLowerCase` (character-wise lowering). -/
def lowerStr (s : String) : String :=
  ⟨s.data.map Char.toLower⟩

/-- `startsWithList p l` holds when `p` is an initial segment of `l`. -/
def startsWithList : List Char → List Char → Bool
  | [], _ => true
  | _ :: _, [] => false
  | p :: ps, c :: cs => p = c && startsWithList ps cs

/-- `startsWithStr s p`: the string `s` starts with `p`. -/
def startsWithStr (s p : String) : Bool :=
  startsWithList p.data s.data

/-- Embeds the regex test `/^https?:\/\//i.test(s)` of `normalizeUrl`:
case-insensitively, `s` starts with `http://` or `https://`. -/
def schemeTest (s : String) : Bool :=
  startsWithStr (lowerStr s) "http://" || startsWithStr (lowerStr s) "https://"

/-- Embeds `normalizeUrl` (App.jsx lines 11-20).  For a JS string argument
`!rawUrl` is true exactly for the empty string, and `trim` never throws, so
the `catch` branch is unreachable. -/
def normalizeUrl (rawUrl : String) : String :=
  if rawUrl = "" then ""
  else
    let trimmed := jsTrim rawUrl
    if schemeTest trimmed then trimmed
    else "https://" ++ trimmed

/-- Helper for `splitOnComma`: `acc` holds the current piece reversed. -/
def splitOnCommaAux : List Char → List Char → List String
  | [], acc => [⟨acc.reverse⟩]
  | c :: cs, acc =>
    if c = ',' then ⟨acc.reverse⟩ :: splitOnCommaAux cs []
    else splitOnCommaAux cs (c :: acc)

/-- Embeds `String.prototype.split(',')`. -/
def splitOnComma (s : String) : List String :=
  splitOnCommaAux s.data []

/-- Embeds `parseTags` (App.jsx lines 22-28): split on commas, trim each
piece, drop empty pieces (`filter(Boolean)`), lowercase each piece. -/
def parseTags (input : String) : List String :=
  (((splitOnComma input).map jsTrim).filter (fun t => t ≠ "")).map lowerStr

/-- IndexedDB keys in this app: `id` is a string for records created by the
app itself, but an imported record keeps any truthy `id` value, so the key
field holds a dynamic JS value. -/
inductive JSVal where
  | undef
  | null
  | bool (b : Bool)
  | num (n : Int)
  | nan
  | inf (neg : Bool)
  | str (s : String)
deriving Repr, DecidableEq

/-- JS truthiness of a value. -/
def JSVal.truthy : JSVal → Bool
  | .undef => false
  | .null => false
  | .bool b => b
  | .num n => n ≠ 0
  | .nan => false
  | .inf _ => true
  | .str s => s ≠ ""

/-- `Number.isFinite` (no coercion: true only for finite numbers). -/
def JSVal.isFiniteNum : JSVal → Bool
  | .num _ => true
  | _ => false

/-- `.toString()` on a dynamic value. -/
def JSVal.toStr : JSVal → String
  | .undef => "undefined"
  | .null => "null"
  | .bool b => if b then "true" else "false"
  | .num n => toString n
  | .nan => "NaN"
  | .inf neg => if neg then "-Infinity" else "Infinity"
  | .str s => s

/-- The persisted link record (spec section 3; shape built in App.jsx). -/
structure Link where
  id : JSVal
  url : String
  title : String
  note : String
  tags : List String
  createdAt : Int
  updatedAt : Int
deriving Repr, DecidableEq

/-- The add/edit form state (`emptyForm` shape in App.jsx). -/
structure FormValues where
  url : String
  title : String
  note : String
  tags : String
deriving Repr, DecidableEq

/-- The record built by `handleAdd` (App.jsx lines 141-151) once the
empty-URL guard has passed; `freshId` stands for `crypto.randomUUID()` and
`now` for `Date.now()`. -/
def buildNewLink (form : FormValues) (freshId : String) (now : Int) : Link :=
  let normalized := normalizeUrl form.url
  { id := .str freshId
    url := normalized
    title := if jsTrim form.title = "" then normalized else jsTrim form.title
    note := jsTrim form.note
    tags := parseTags form.tags
    createdAt := now
    updatedAt := now }

/-- Embeds `handleAdd` (App.jsx lines 132-164): rejects a blank URL
(`!form.url.trim()`) before building and persisting the record. -/
def handleAdd (form : FormValues) (freshId : String) (now : Int) :
    Option Link :=
  if jsTrim form.url = "" then none
  else some (buildNewLink form freshId now)

/-- Embeds the record construction of `saveEdit` (App.jsx lines 186-194):
spreads the existing link and overwrites the mutable fields; note that no
emptiness check is applied to the URL field on this path. -/
def saveEdit (link : Link) (editForm : FormValues) (now : Int) : Link :=
  { link with
    url := normalizeUrl editForm.url
    title := if jsTrim editForm.title = "" then normalizeUrl editForm.url
             else jsTrim editForm.title
    note := jsTrim editForm.note
    tags := parseTags editForm.tags
    updatedAt := now }

/-! ## The record store (src/db.js)

The IndexedDB object store `links` (keyPath `id`) is modelled as a list of
records.  A store operation returns the store contents afterwards together
with `none` on success or the error the transaction rejected with.  Errors
of the embedded engine itself (quota, clone failures, ...) are modelled by
a failure oracle where a claim needs them. -/

inductive DBError where
  | constraintError
  | txError
deriving Repr, DecidableEq

/-- IndexedDB `store.put`: upsert by key — replaces the record stored under
`l.id` when one exists, inserts `l` otherwise. -/
def idbPut (db : List Link) (l : Link) : List Link :=
  if db.any (fun r => r.id = l.id) then
    db.map (fun r => if r.id = l.id then l else r)
  else db ++ [l]

/-- Embeds `addLink` (db.js lines 56-58): IndexedDB `store.add` rejects a
colliding key with a ConstraintError, aborting the transaction (store
unchanged); otherwise the record is inserted. -/
def addLink (db : List Link) (l : Link) : List Link × Option DBError :=
  if db.any (fun r => r.id = l.id) then (db, some .constraintError)
  else (db ++ [l], none)

/-- Embeds `updateLink` (db.js lines 60-62): a plain `store.put`. -/
def updateLink (db : List Link) (l : Link) : List Link × Option DBError :=
  (idbPut db l, none)

/-- Embeds `deleteLink` (db.js lines 64-66): IndexedDB `store.delete`
removes the record under the key and succeeds whether or not it exists. -/
def deleteLink (db : List Link) (i : JSVal) : List Link × Option DBError :=
  (db.filter (fun r => r.id ≠ i), none)

/-- Embeds `getAllLinks` (db.js lines 49-54): `store.getAll` returns every
stored record. -/
def getAllLinks (db : List Link) : List Link := db

/-- Runs the writes of a batch transaction in order against the failure
oracle `fails`; the first failing write aborts the transaction. -/
def runBatch (fails : Link → Bool) (db : List Link) :
    List Link → Except DBError (List Link)
  | [] => .ok db
  | l :: rest =>
    if fails l then .error .txError
    else runBatch fails (idbPut db l) rest

/-- Modelled from the spec: `putLinks` is imported by App.jsx from
`./db` but src/db.js does not contain its definition.  Spec section 4.1:
"`putMany(links)`: batch upsert of a sequence of records in a single
atomic transaction; if any individual write fails, the whole batch
transaction aborts and none of the batch is committed."  An aborted
transaction rolls the store back to its pre-call contents. -/
def putLinks (fails : Link → Bool) (db : List Link) (ls : List Link) :
    List Link × Option DBError :=
  match runBatch fails db ls with
  | .ok db2 => (db2, none)
  | .error e => (db, some e)

/-! ## The memoized database connection (db.js lines 5-27, 36-47)

`openDB` caches the connection promise in the module-level `dbPromise` and
never resets it.  `env i` is the environment's response to the `i`-th call
of `indexedDB.open`; `openCount` counts how many opens were initiated. -/

inductive OpenOutcome where
  | success (handle : Nat)
  | failure (e : DBError)
deriving Repr, DecidableEq

structure ProcState where
  dbPromise : Option OpenOutcome
  openCount : Nat
deriving Repr, DecidableEq

/-- The state before any store operation ran: `let dbPromise = null`. -/
def initialProcState : ProcState := ⟨none, 0⟩

/-- Embeds `openDB` (db.js lines 7-27): return the cached promise if there
is one, otherwise initiate one `indexedDB.open` and cache its settled
outcome forever (the promise is never reset, not even on rejection). -/
def openDB (env : Nat → OpenOutcome) (s : ProcState) :
    OpenOutcome × ProcState :=
  match s.dbPromise with
  | some p => (p, s)
  | none =>
    (env s.openCount,
     { dbPromise := some (env s.openCount), openCount := s.openCount + 1 })

/-- Runs `n` store operations in sequence; each one awaits `openDB` first
(db.js `withStore` line 37, `getAllLinks` line 50) and observes its
outcome.  Returns the final state and the outcomes observed. -/
def runOps (env : Nat → OpenOutcome) : Nat → ProcState → ProcState × List OpenOutcome
  | 0, s => (s, [])
  | n + 1, s =>
    let (o, s') := openDB env s
    let (s'', os) := runOps env n s'
    (s'', o :: os)

/-! ## Import (App.jsx lines 235-281)

An element of the parsed JSON is either a JS object with the seven fields
an import candidate can carry (each a dynamic value; `tags` is `some l`
exactly when `Array.isArray(item.tags)` holds) or a falsy / property-less
value, modelled by `none` — such an element fails the
`item && typeof item.url === 'string'` filter either way. -/

structure RawItem where
  id : JSVal
  url : JSVal
  title : JSVal
  note : JSVal
  tags : Option (List JSVal)
  createdAt : JSVal
  updatedAt : JSVal
deriving Repr, DecidableEq

/-- A raw item whose fields are all absent. -/
def RawItem.empty : RawItem :=
  ⟨.undef, .undef, .undef, .undef, none, .undef, .undef⟩

/-- The parsed import file: a bare array, an object (whose `links` field is
`some l` exactly when it is an array), or any other JSON value. -/
inductive ImportData where
  | arr (items : List (Option RawItem))
  | obj (links : Option (List (Option RawItem)))
  | other
deriving Repr, DecidableEq

/-- `Array.isArray(data) ? data : data?.links` (App.jsx line 236). -/
def importList : ImportData → Option (List (Option RawItem))
  | .arr items => some items
  | .obj links => links
  | .other => none

/-- The `filter` of `normalizeImportedLinks` (App.jsx line 239): keep the
elements that are objects whose `url` property is a string, paired with
that string. -/
def survivors (l : List (Option RawItem)) : List (RawItem × String) :=
  l.filterMap (fun o =>
    match o with
    | some item =>
      match item.url with
      | .str u => some (item, u)
      | _ => none
    | none => none)

/-- The `map` body of `normalizeImportedLinks` (App.jsx lines 240-252);
`fresh` stands for `crypto.randomUUID()` and `now` for `Date.now()`. -/
def mkImported (fresh : String) (now : Int) (p : RawItem × String) : Link :=
  let item := p.1
  let normalizedUrl := normalizeUrl p.2
  { id := if item.id.truthy then item.id else .str fresh
    url := normalizedUrl
    title := jsTrim (if item.title.truthy then item.title
                     else .str normalizedUrl).toStr
    note := jsTrim (if item.note.truthy then item.note else .str "").toStr
    tags := match item.tags with
            | some ts => (ts.map (fun t => jsTrim (lowerStr t.toStr))).filter
                (fun t => t ≠ "")
            | none => []
    createdAt := match item.createdAt with | .num n => n | _ => now
    updatedAt := match item.updatedAt with | .num n => n | _ => now }

/-- Maps `mkImported` over the survivors, handing each position its own
fresh identifier (`freshIds i` is the `i`-th `crypto.randomUUID()`). -/
def normSurvivors (freshIds : Nat → String) (now : Int) :
    Nat → List (RawItem × String) → List Link
  | _, [] => []
  | i, p :: rest =>
    mkImported (freshIds i) now p :: normSurvivors freshIds now (i + 1) rest

/-- Embeds `normalizeImportedLinks` (App.jsx lines 235-253). -/
def normalizeImportedLinks (freshIds : Nat → String) (now : Int)
    (data : ImportData) : List Link :=
  match importList data with
  | none => []
  | some l => normSurvivors freshIds now 0 (survivors l)

/-- The outcome `importLinks` reports through `setImportMessage`. -/
inductive ImportOutcome where
  | noValidLinks
  | allExist
  | importFailed
  | imported (count : Nat)
deriving Repr, DecidableEq

/-- Result of an import: the batch handed to `putLinks` (empty when no
write happened), the in-memory link list afterwards, and the outcome. -/
structure ImportResult where
  written : List Link
  links : List Link
  outcome : ImportOutcome
deriving Repr, DecidableEq

/-- Sort used on App.jsx line 275: descending by `createdAt`. -/
def sortByCreatedDesc (l : List Link) : List Link :=
  l.mergeSort (fun a b => b.createdAt ≤ a.createdAt)

/-- Embeds `importLinks` (App.jsx lines 255-281) after JSON parsing:
normalize the candidates, report when none are valid, drop candidates
whose URL is already present in the in-memory `links`, report when none
remain, otherwise persist the remainder with one `putLinks` batch (a
rejected batch lands in the `catch`, leaving the list untouched) and
report the count inserted. -/
def importLinks (fails : Link → Bool) (freshIds : Nat → String) (now : Int)
    (links : List Link) (data : ImportData) : ImportResult :=
  let incoming := normalizeImportedLinks freshIds now data
  if incoming.isEmpty then ⟨[], links, .noValidLinks⟩
  else
    let merged := incoming.filter
      (fun l => !(links.map (fun r => r.url)).contains l.url)
    if merged.isEmpty then ⟨[], links, .allExist⟩
    else if merged.any fails then ⟨[], links, .importFailed⟩
    else ⟨merged, sortByCreatedDesc (merged ++ links), .imported merged.length⟩

/-- Concrete records used by witnesses and counterexamples. -/
def linkA : Link := ⟨.str "a", "https://a.com", "A", "", [], 1, 1⟩

def linkB : Link := ⟨.str "b", "https://b.com", "B", "", [], 2, 2⟩

/-! ## Helper lemmas -/

theorem startsWithList_self_append (p l : List Char) :
    startsWithList p (p ++ l) = true := by
  induction p with
  | nil => rfl
  | cons c cs ih => simp [startsWithList, ih]

theorem lowerStr_append (a b : String) :
    lowerStr (a ++ b) = lowerStr a ++ lowerStr b := by
  apply String.ext
  simp [lowerStr, String.data_append]

theorem schemeTest_https_append (t : String) :
    schemeTest ("https://" ++ t) = true := by
  have h : lowerStr ("https://" ++ t) = "https://" ++ lowerStr t := by
    rw [lowerStr_append]
    rfl
  rw [schemeTest, h]
  refine Bool.or_eq_true_iff.mpr (Or.inr ?_)
  rw [startsWithStr, String.data_append]
  exact startsWithList_self_append _ _

theorem schemeTest_ne_empty {t : String} (h : schemeTest t = true) :
    t ≠ "" := by
  intro he
  rw [he] at h
  exact absurd h (by decide)

theorem https_append_ne_empty (t : String) : "https://" ++ t ≠ "" := by
  intro h
  have hl := congrArg String.length h
  rw [String.length_append] at hl
  have h8 : ("https://" : String).length = 8 := rfl
  have h0 : ("" : String).length = 0 := rfl
  omega

/-- `normalizeUrl` with its `let` zeta-reduced, for rewriting. -/
theorem normalizeUrl_eq (s : String) :
    normalizeUrl s =
      if s = "" then ""
      else if schemeTest (jsTrim s) then jsTrim s
      else "https://" ++ jsTrim s := rfl

theorem normalizeUrl_ne_empty_scheme {s : String} (h : s ≠ "") :
    normalizeUrl s ≠ "" ∧ schemeTest (normalizeUrl s) = true := by
  rw [normalizeUrl_eq, if_neg h]
  by_cases hs : schemeTest (jsTrim s) = true
  · rw [if_pos hs]
    exact ⟨schemeTest_ne_empty hs, hs⟩
  · rw [if_neg hs]
    exact ⟨https_append_ne_empty _, schemeTest_https_append _⟩

theorem lowerStr_eq_empty {u : String} (h : lowerStr u = "") : u = "" := by
  apply String.ext
  have hdata : u.data.map Char.toLower = [] := congrArg String.data h
  simpa using List.map_eq_nil_iff.mp hdata

/-! ## Claims -/

/-- C5: `normalizeUrl` maps the empty string to the empty string; a
non-empty string whose trimmed form fails the case-insensitive
`http://`/`https://` test is returned as `https://` prepended to its
trimmed form; a string whose trimmed form passes the test is returned
trimmed and otherwise unchanged. -/
theorem normalizeUrl_cases (s : String) :
    (s = "" → normalizeUrl s = "") ∧
    (s ≠ "" → schemeTest (jsTrim s) = false →
      normalizeUrl s = "https://" ++ jsTrim s) ∧
    (schemeTest (jsTrim s) = true → normalizeUrl s = jsTrim s) := by
  refine ⟨?_, ?_, ?_⟩
  · intro h
    rw [normalizeUrl_eq, if_pos h]
  · intro h hs
    rw [normalizeUrl_eq, if_neg h, if_neg (by simp [hs])]
  · intro hs
    have hne : s ≠ "" := by
      intro h
      rw [h] at hs
      exact absurd hs (by decide)
    rw [normalizeUrl_eq, if_neg hne, if_pos hs]

/-- Witness for C5 at concrete inputs. -/
theorem normalizeUrl_cases_witness :
    normalizeUrl "example.com" = "https://" ++ jsTrim "example.com" ∧
    normalizeUrl " HTTP://x" = jsTrim " HTTP://x" :=
  ⟨(normalizeUrl_cases "example.com").2.1 (by decide) (by decide),
   (normalizeUrl_cases " HTTP://x").2.2 (by decide)⟩

/-- C10: a non-empty whitespace-only URL string normalizes to the literal
`https://`, and the edit-save path (which never checks the URL for
emptiness) therefore stores a record whose `url` is exactly `https://`. -/
theorem saveEdit_whitespace_url (f : FormValues) (link : Link) (now : Int)
    (h1 : f.url ≠ "") (h2 : ∀ c ∈ f.url.data, jsIsWs c = true) :
    normalizeUrl f.url = "https://" ∧
    (saveEdit link f now).url = "https://" := by
  have ht : jsTrim f.url = "" := by
    rw [jsTrim]
    have hd : f.url.data.dropWhile jsIsWs = [] :=
      List.dropWhile_eq_nil_iff.mpr h2
    rw [hd]
    rfl
  have hn : normalizeUrl f.url = "https://" := by
    rw [normalizeUrl_eq, if_neg h1, ht, if_neg (by decide), String.append_empty]
  exact ⟨hn, hn⟩

/-- Witness for C10 at a two-space URL. -/
theorem saveEdit_whitespace_url_witness :
    normalizeUrl "  " = "https://" ∧
    (saveEdit linkA ⟨"  ", "", "", ""⟩ 0).url = "https://" :=
  saveEdit_whitespace_url ⟨"  ", "", "", ""⟩ linkA 0 (by decide) (by decide)

/-- C3 counterexample: at the claim's own example input, `parseTags`
returns `["design", "marketing", "design"]` — it drops empty entries but
never deduplicates, so the result is not duplicate-free. -/
theorem parseTags_nodup_cex :
    ¬ (parseTags "Design, , Marketing ,design").Nodup := by decide

/-- C3 amended: `parseTags` never returns an empty entry, and on the
example input the set of returned entries equals
`{"design", "marketing"}`; duplicates, however, are kept (the code
performs no deduplication — the result is a list treated as a set only
downstream). -/
theorem parseTags_no_empty_and_example :
    (∀ input t, t ∈ parseTags input → t ≠ "") ∧
    (∀ t, t ∈ parseTags "Design, , Marketing ,design" ↔
      (t = "design" ∨ t = "marketing")) := by
  constructor
  · intro input t ht
    obtain ⟨u, hu, rfl⟩ := List.mem_map.mp ht
    have hne : u ≠ "" := by simpa using (List.mem_filter.mp hu).2
    intro h
    exact hne (lowerStr_eq_empty h)
  · intro t
    have hp : parseTags "Design, , Marketing ,design" =
        ["design", "marketing", "design"] := by decide
    rw [hp]
    simp only [List.mem_cons, List.not_mem_nil, or_false]
    tauto

/-- Witness for C3's amended statement at concrete entries. -/
theorem parseTags_no_empty_and_example_witness :
    ("design" : String) ≠ "" ∧
    ("design" ∈ parseTags "Design, , Marketing ,design" ↔
      (("design" : String) = "design" ∨ ("design" : String) = "marketing")) :=
  ⟨parseTags_no_empty_and_example.1 "Design, , Marketing ,design" "design"
    (by decide),
   parseTags_no_empty_and_example.2 "design"⟩

/-- Every element produced by `normSurvivors` is `mkImported` applied to
some survivor, with some position's fresh identifier. -/
theorem mem_normSurvivors {freshIds : Nat → String} {now : Int} :
    ∀ (i : Nat) (L : List (RawItem × String)) (l : Link),
      l ∈ normSurvivors freshIds now i L →
      ∃ j p, p ∈ L ∧ l = mkImported (freshIds j) now p := by
  intro i L
  induction L generalizing i with
  | nil =>
    intro l h
    cases h
  | cons p rest ih =>
    intro l h
    rcases List.mem_cons.mp h with h1 | h2
    · exact ⟨i, p, List.mem_cons_self p rest, h1⟩
    · obtain ⟨j, q, hq, he⟩ := ih (i + 1) l h2
      exact ⟨j, q, List.mem_cons_of_mem p hq, he⟩

/-- The URL of an imported record is `normalizeUrl` of the candidate's
URL string. -/
theorem mkImported_url (fresh : String) (now : Int) (p : RawItem × String) :
    (mkImported fresh now p).url = normalizeUrl p.2 := rfl

/-- C4 counterexample: the import candidate `{url: ""}` passes the
string-URL filter, and importing it into an empty collection persists a
record whose `url` is the empty string (the batch handed to `putLinks`
consists of exactly that record, and the import reports one inserted). -/
theorem import_empty_url_cex :
    (importLinks (fun _ => false) (fun _ => "fresh-0") 0 []
        (.arr [some { RawItem.empty with url := .str "" }])).written.map
      (fun l => l.url) = [""] ∧
    (importLinks (fun _ => false) (fun _ => "fresh-0") 0 []
        (.arr [some { RawItem.empty with url := .str "" }])).outcome =
      .imported 1 := by decide

/-- C4 amended: a record created through `handleAdd` always has a
non-empty URL bearing an `http://`/`https://` scheme (the add path rejects
blank URLs first); a record written through the edit path has a
scheme-bearing non-empty URL whenever the raw URL is non-empty; an
imported record's URL either bears a scheme or is the empty string — the
empty-string case is reachable, since an imported candidate whose `url`
is `""` survives the filter and is persisted with `url = ""`. -/
theorem url_scheme_invariant :
    (∀ form freshId now l, handleAdd form freshId now = some l →
      l.url ≠ "" ∧ schemeTest l.url = true) ∧
    (∀ link f now, f.url ≠ "" →
      (saveEdit link f now).url ≠ "" ∧
      schemeTest (saveEdit link f now).url = true) ∧
    (∀ freshIds now data l, l ∈ normalizeImportedLinks freshIds now data →
      l.url = "" ∨ schemeTest l.url = true) := by
  refine ⟨?_, ?_, ?_⟩
  · intro form freshId now l h
    rw [handleAdd] at h
    by_cases hb : jsTrim form.url = ""
    · rw [if_pos hb] at h
      cases h
    · rw [if_neg hb] at h
      have hurl : form.url ≠ "" := by
        intro he
        exact hb (by rw [he]; rfl)
      have hl : l.url = normalizeUrl form.url := by
        cases h
        rfl
      rw [hl]
      exact normalizeUrl_ne_empty_scheme hurl
  · intro link f now hf
    have hu : (saveEdit link f now).url = normalizeUrl f.url := rfl
    rw [hu]
    exact normalizeUrl_ne_empty_scheme hf
  · intro freshIds now data l h
    rw [normalizeImportedLinks] at h
    cases hd : importList data with
    | none =>
      rw [hd] at h
      cases h
    | some L =>
      rw [hd] at h
      obtain ⟨j, p, _, he⟩ := mem_normSurvivors 0 (survivors L) l h
      rw [he, mkImported_url]
      by_cases hp : p.2 = ""
      · exact Or.inl (by rw [hp]; decide)
      · exact Or.inr (normalizeUrl_ne_empty_scheme hp).2

/-- Witness for C4's amended statement on the add path. -/
theorem url_scheme_invariant_witness :
    (buildNewLink ⟨"example.com", "", "", ""⟩ "id0" 0).url ≠ "" ∧
    schemeTest (buildNewLink ⟨"example.com", "", "", ""⟩ "id0" 0).url = true :=
  url_scheme_invariant.1 ⟨"example.com", "", "", ""⟩ "id0" 0
    (buildNewLink ⟨"example.com", "", "", ""⟩ "id0" 0) (by decide)

/-- C6: `addLink` on a colliding `id` rejects with the store's
ConstraintError and leaves the collection unchanged; on a fresh `id` it
succeeds and `getAllLinks` afterwards returns exactly the previous
collection plus the added record. -/
theorem addLink_spec (db : List Link) (l : Link) :
    ((∃ r ∈ db, r.id = l.id) →
      addLink db l = (db, some .constraintError)) ∧
    ((∀ r ∈ db, r.id ≠ l.id) →
      addLink db l = (db ++ [l], none) ∧
      getAllLinks (addLink db l).1 = getAllLinks db ++ [l]) := by
  constructor
  · rintro ⟨r, hr, hid⟩
    have hany : db.any (fun r => r.id = l.id) = true := by
      rw [List.any_eq_true]
      exact ⟨r, hr, by simp [hid]⟩
    rw [addLink, if_pos hany]
  · intro h
    have hany : db.any (fun r => r.id = l.id) = false := by
      rw [List.any_eq_false]
      intro r hr
      simp [h r hr]
    rw [addLink, if_neg (by simp [hany])]
    exact ⟨rfl, rfl⟩

/-- Witness for C6: a duplicate insert is rejected; a fresh insert lands. -/
theorem addLink_spec_witness :
    addLink [linkA] linkA = ([linkA], some .constraintError) ∧
    addLink [linkA] linkB = ([linkA, linkB], none) :=
  ⟨(addLink_spec [linkA] linkA).1 ⟨linkA, by decide, rfl⟩,
   ((addLink_spec [linkA] linkB).2 (by decide)).1⟩

/-- C7: `updateLink` never fails — it replaces the record stored at the
link's `id` when one exists and appends the record when absent (upsert);
`deleteLink` never fails — it removes every record stored at the given
`id` and leaves the collection unchanged when the `id` is absent. -/
theorem updateLink_deleteLink_spec (db : List Link) (l : Link) (i : JSVal) :
    (updateLink db l).2 = none ∧
    ((∀ r ∈ db, r.id ≠ l.id) → (updateLink db l).1 = db ++ [l]) ∧
    ((∃ r ∈ db, r.id = l.id) →
      (updateLink db l).1 = db.map (fun r => if r.id = l.id then l else r)) ∧
    (deleteLink db i).2 = none ∧
    ((∀ r ∈ db, r.id ≠ i) → (deleteLink db i).1 = db) ∧
    (∀ r ∈ (deleteLink db i).1, r.id ≠ i) := by
  refine ⟨rfl, ?_, ?_, rfl, ?_, ?_⟩
  · intro h
    have hany : db.any (fun r => r.id = l.id) = false := by
      rw [List.any_eq_false]
      intro r hr
      simp [h r hr]
    rw [updateLink, idbPut, if_neg (by simp [hany])]
  · rintro ⟨r, hr, hid⟩
    have hany : db.any (fun r => r.id = l.id) = true := by
      rw [List.any_eq_true]
      exact ⟨r, hr, by simp [hid]⟩
    rw [updateLink, idbPut, if_pos hany]
  · intro h
    rw [show (deleteLink db i).1 = db.filter (fun r => r.id ≠ i) from rfl,
      List.filter_eq_self]
    intro r hr
    simp [h r hr]
  · intro r hr
    have := (List.mem_filter.mp hr).2
    simpa using this

/-- Witness for C7: upsert on an absent id appends, replaces on a present
id, and deleting an absent id is a no-op. -/
theorem updateLink_deleteLink_spec_witness :
    (updateLink [linkA] linkB).1 = [linkA, linkB] ∧
    (updateLink [linkA] ⟨.str "a", "https://c.com", "C", "", [], 3, 3⟩).1 =
      [⟨.str "a", "https://c.com", "C", "", [], 3, 3⟩] ∧
    (deleteLink [linkA] (.str "zz")).1 = [linkA] :=
  ⟨(updateLink_deleteLink_spec [linkA] linkB (.str "zz")).2.1 (by decide),
   by
    have h := (updateLink_deleteLink_spec [linkA]
      ⟨.str "a", "https://c.com", "C", "", [], 3, 3⟩ (.str "zz")).2.2.1
      ⟨linkA, by decide, rfl⟩
    rw [h]
    decide,
   (updateLink_deleteLink_spec [linkA] linkB (.str "zz")).2.2.2.2.1
     (by decide)⟩

theorem runBatch_error (fails : Link → Bool) :
    ∀ (ls : List Link) (db : List Link), (∃ l ∈ ls, fails l = true) →
      runBatch fails db ls = .error .txError := by
  intro ls
  induction ls with
  | nil =>
    rintro db ⟨l, hl, _⟩
    cases hl
  | cons a rest ih =>
    rintro db ⟨l, hl, hf⟩
    rw [runBatch]
    by_cases ha : fails a = true
    · rw [if_pos ha]
    · rw [if_neg ha]
      rcases List.mem_cons.mp hl with rfl | hmem
      · exact absurd hf ha
      · exact ih _ ⟨l, hmem, hf⟩

theorem runBatch_ok (fails : Link → Bool) :
    ∀ (ls : List Link) (db : List Link), (∀ l ∈ ls, fails l = false) →
      runBatch fails db ls = .ok (ls.foldl idbPut db) := by
  intro ls
  induction ls with
  | nil =>
    intro db _
    rfl
  | cons a rest ih =>
    intro db h
    rw [runBatch, if_neg (by simp [h a (List.mem_cons_self a rest)]),
      List.foldl_cons]
    exact ih _ (fun l hl => h l (List.mem_cons_of_mem a hl))

/-- C1: the batch write is atomic — when every record of the batch writes
cleanly, `putLinks` upserts them all in order; when any record's write
fails, the transaction aborts, nothing of the batch is persisted, and the
collection afterwards is exactly the collection before the call. -/
theorem putLinks_atomic (fails : Link → Bool) (db ls : List Link) :
    ((∀ l ∈ ls, fails l = false) →
      putLinks fails db ls = (ls.foldl idbPut db, none)) ∧
    ((∃ l ∈ ls, fails l = true) →
      putLinks fails db ls = (db, some .txError)) := by
  constructor
  · intro h
    rw [putLinks, runBatch_ok fails ls db h]
  · intro h
    rw [putLinks, runBatch_error fails ls db h]

/-- A record whose write fails: used to exercise the abort path. -/
def failsBadId : Link → Bool := fun l => l.id = .str "bad"

def linkBad : Link := ⟨.str "bad", "https://bad.com", "bad", "", [], 3, 3⟩

/-- Witness for C1: a batch `[b, bad]` whose second write fails leaves the
store exactly as it was, while the same batch with no failing write
upserts both records. -/
theorem putLinks_atomic_witness :
    putLinks failsBadId [linkA] [linkB, linkBad] =
      ([linkA], some .txError) ∧
    putLinks (fun _ => false) [linkA] [linkB] =
      ([linkA, linkB], none) :=
  ⟨(putLinks_atomic failsBadId [linkA] [linkB, linkBad]).2
    ⟨linkBad, by decide, by decide⟩,
   by
    have h := (putLinks_atomic (fun _ => false) [linkA] [linkB]).1
      (fun _ _ => rfl)
    rw [h]
    decide⟩

/-- An import candidate whose `id` is the number `7`. -/
def itemNumId : RawItem :=
  { RawItem.empty with url := .str "a.com", id := .num 7 }

/-- C8 counterexample: an import candidate carrying the number `7` as its
`id` — not a non-empty string — is persisted with that very `id`: the code
keeps any truthy `id` (`item.id || crypto.randomUUID()`), so no fresh
identifier (here `"F"`) is generated. -/
theorem imported_id_cex :
    (normalizeImportedLinks (fun _ => "F") 0
        (.arr [some itemNumId])).map (fun l => l.id) = [.num 7] ∧
    JSVal.num 7 ≠ JSVal.str "F" := by decide

/-- C8 amended: an imported survivor keeps its supplied `id` exactly when
that value is truthy — every non-empty string, but also any non-zero
finite number, `true`, or an infinity — and receives a fresh identifier
exactly when it is falsy; `createdAt` and `updatedAt` are kept exactly
when the supplied values are finite numbers and are set to the current
time otherwise. -/
theorem mkImported_preserves (fresh : String) (now : Int) (item : RawItem)
    (u : String) :
    (∀ s, item.id = .str s → s ≠ "" →
      (mkImported fresh now (item, u)).id = .str s) ∧
    (item.id.truthy = true → (mkImported fresh now (item, u)).id = item.id) ∧
    (item.id.truthy = false →
      (mkImported fresh now (item, u)).id = .str fresh) ∧
    (∀ n : Int, item.createdAt = .num n →
      (mkImported fresh now (item, u)).createdAt = n) ∧
    (item.createdAt.isFiniteNum = false →
      (mkImported fresh now (item, u)).createdAt = now) ∧
    (∀ n : Int, item.updatedAt = .num n →
      (mkImported fresh now (item, u)).updatedAt = n) ∧
    (item.updatedAt.isFiniteNum = false →
      (mkImported fresh now (item, u)).updatedAt = now) := by
  refine ⟨?_, ?_, ?_, ?_, ?_, ?_, ?_⟩
  · intro s hs hne
    have ht : item.id.truthy = true := by
      rw [hs]
      simpa [JSVal.truthy] using hne
    show (if item.id.truthy then item.id else .str fresh) = .str s
    rw [if_pos ht, hs]
  · intro ht
    show (if item.id.truthy then item.id else .str fresh) = item.id
    rw [if_pos ht]
  · intro ht
    show (if item.id.truthy then item.id else .str fresh) = .str fresh
    rw [ht]
    rfl
  · intro n hn
    show (match item.createdAt with | .num n => n | _ => now) = n
    rw [hn]
  · intro hf
    show (match item.createdAt with | .num n => n | _ => now) = now
    cases h : item.createdAt <;> first
      | rfl
      | (rw [h] at hf; simp [JSVal.isFiniteNum] at hf)
  · intro n hn
    show (match item.updatedAt with | .num n => n | _ => now) = n
    rw [hn]
  · intro hf
    show (match item.updatedAt with | .num n => n | _ => now) = now
    cases h : item.updatedAt <;> first
      | rfl
      | (rw [h] at hf; simp [JSVal.isFiniteNum] at hf)

/-- Witness for C8's amended statement: the numeric id `7` is kept, the
missing `createdAt` falls back to the current time. -/
theorem mkImported_preserves_witness :
    (mkImported "F" 5
      ({ RawItem.empty with url := .str "a.com", id := .num 7 },
        "a.com")).id = .num 7 ∧
    (mkImported "F" 5
      ({ RawItem.empty with url := .str "a.com", id := .num 7 },
        "a.com")).createdAt = 5 :=
  ⟨(mkImported_preserves "F" 5
      { RawItem.empty with url := .str "a.com", id := .num 7 }
      "a.com").2.1 (by decide),
   (mkImported_preserves "F" 5
      { RawItem.empty with url := .str "a.com", id := .num 7 }
      "a.com").2.2.2.2.1 (by decide)⟩

theorem runOps_cached (env : Nat → OpenOutcome) (p : OpenOutcome) :
    ∀ (m : Nat) (s : ProcState), s.dbPromise = some p →
      (runOps env m s).1 = s ∧ ∀ o ∈ (runOps env m s).2, o = p := by
  intro m
  induction m with
  | zero =>
    intro s _
    exact ⟨rfl, fun o ho => absurd ho (List.not_mem_nil o)⟩
  | succ k ih =>
    intro s hs
    have hopen : openDB env s = (p, s) := by
      rw [openDB, hs]
    have hrun : runOps env (k + 1) s =
        ((runOps env k s).1, p :: (runOps env k s).2) := by
      rw [runOps, hopen]
    obtain ⟨ih1, ih2⟩ := ih s hs
    rw [hrun]
    refine ⟨ih1, ?_⟩
    intro o ho
    rcases List.mem_cons.mp ho with rfl | hmem
    · rfl
    · exact ih2 o hmem

/-- C9: starting from the initial module state, any sequence of `n ≥ 1`
store operations initiates exactly one `indexedDB.open`; the settled
outcome of that single attempt is cached in `dbPromise` forever — it is
never reset, so every operation (including all later ones after a failed
first open) observes exactly the first attempt's outcome. -/
theorem openDB_memoized (env : Nat → OpenOutcome) (n : Nat) (h : 1 ≤ n) :
    (runOps env n initialProcState).1.openCount = 1 ∧
    (runOps env n initialProcState).1.dbPromise = some (env 0) ∧
    ∀ o ∈ (runOps env n initialProcState).2, o = env 0 := by
  obtain ⟨m, rfl⟩ : ∃ m, n = m + 1 := ⟨n - 1, by omega⟩
  have hopen : openDB env initialProcState =
      (env 0, ⟨some (env 0), 1⟩) := rfl
  have hrun : runOps env (m + 1) initialProcState =
      ((runOps env m ⟨some (env 0), 1⟩).1,
        env 0 :: (runOps env m ⟨some (env 0), 1⟩).2) := by
    rw [runOps, hopen]
  obtain ⟨hc1, hc2⟩ := runOps_cached env (env 0) m ⟨some (env 0), 1⟩ rfl
  rw [hrun, hc1]
  refine ⟨rfl, rfl, ?_⟩
  intro o ho
  rcases List.mem_cons.mp ho with rfl | hmem
  · rfl
  · exact hc2 o hmem

/-- Witness for C9: three operations after a failing first open all see
that same cached failure and only one open was ever initiated. -/
theorem openDB_memoized_witness :
    (runOps (fun _ => OpenOutcome.failure .txError) 3
        initialProcState).1.openCount = 1 ∧
    (runOps (fun _ => OpenOutcome.failure .txError) 3
        initialProcState).1.dbPromise = some (.failure .txError) :=
  ⟨(openDB_memoized (fun _ => .failure .txError) 3 (by decide)).1,
   (openDB_memoized (fun _ => .failure .txError) 3 (by decide)).2.1⟩

theorem contains_eq_true_of_mem {l : List String} {a : String}
    (h : a ∈ l) : l.contains a = true := by
  simpa [List.contains] using List.elem_eq_true_of_mem h

theorem contains_eq_false_of_forall {l : List String} {a : String}
    (h : ∀ b ∈ l, b ≠ a) : l.contains a = false := by
  by_contra hc
  rw [Bool.not_eq_false] at hc
  obtain ⟨b, hb, heq⟩ := List.contains_iff_exists_mem_beq.mp hc
  have hab : a = b := by simpa using heq
  exact h b hb hab.symm

/-- Concrete records for the import-merge scenario. -/
def linkX : Link := ⟨.str "x1", "https://x.com", "x", "", [], 1, 1⟩

def linkY : Link := ⟨.str "y1", "https://y.com", "y", "", [], 2, 2⟩

def itemXc : RawItem := { RawItem.empty with url := .str "https://x.com" }

def itemYc : RawItem := { RawItem.empty with url := .str "https://y.com" }

/-- C2 counterexample: when the local collection happens to contain a
record with URL `https://y.com` as well, the very same import (file with
one valid `https://x.com` record and one valid `https://y.com` record,
local collection containing an `https://x.com` record) persists nothing
and reports "all links already exist" instead of an inserted count of 1. -/
theorem import_merge_xy_cex :
    (importLinks (fun _ => false) (fun _ => "f") 0 [linkX, linkY]
        (.obj (some [some itemXc, some itemYc]))).outcome = .allExist ∧
    (importLinks (fun _ => false) (fun _ => "f") 0 [linkX, linkY]
        (.obj (some [some itemXc, some itemYc]))).written = [] := by decide

/-- C2 amended: when the local collection contains a record with URL
`https://x.com` and no record with URL `https://y.com`, importing a file
with one valid `https://x.com` record and one valid `https://y.com`
record (and no failing write) hands exactly the `y.com` record to the
batch write, reports an inserted count of 1, and keeps every existing
local record (in particular the `x.com` record) unchanged in the
resulting collection. -/
theorem import_merge_xy (fails : Link → Bool) (freshIds : Nat → String)
    (now : Int) (links : List Link) (itemX itemY : RawItem)
    (hfx : itemX.url = .str "https://x.com")
    (hfy : itemY.url = .str "https://y.com")
    (hx : ∃ r ∈ links, r.url = "https://x.com")
    (hy : ∀ r ∈ links, r.url ≠ "https://y.com")
    (hnf : ∀ l, fails l = false) :
    (importLinks fails freshIds now links
        (.obj (some [some itemX, some itemY]))).outcome = .imported 1 ∧
    (importLinks fails freshIds now links
        (.obj (some [some itemX, some itemY]))).written.map
      (fun l => l.url) = ["https://y.com"] ∧
    ∀ r ∈ links, r ∈ (importLinks fails freshIds now links
        (.obj (some [some itemX, some itemY]))).links := by
  have hsurv : survivors [some itemX, some itemY] =
      [(itemX, "https://x.com"), (itemY, "https://y.com")] := by
    rw [survivors]
    simp [List.filterMap_cons, hfx, hfy]
  have hinc : normalizeImportedLinks freshIds now
      (.obj (some [some itemX, some itemY])) =
      [mkImported (freshIds 0) now (itemX, "https://x.com"),
       mkImported (freshIds 1) now (itemY, "https://y.com")] := by
    rw [normalizeImportedLinks]
    show normSurvivors freshIds now 0
        (survivors [some itemX, some itemY]) = _
    rw [hsurv]
    rfl
  have hux : (mkImported (freshIds 0) now (itemX, "https://x.com")).url =
      "https://x.com" := by
    show normalizeUrl "https://x.com" = "https://x.com"
    decide
  have huy : (mkImported (freshIds 1) now (itemY, "https://y.com")).url =
      "https://y.com" := by
    show normalizeUrl "https://y.com" = "https://y.com"
    decide
  obtain ⟨rx, hrx, hrxu⟩ := hx
  have hcx : (links.map (fun r => r.url)).contains "https://x.com" = true :=
    contains_eq_true_of_mem (List.mem_map.mpr ⟨rx, hrx, hrxu⟩)
  have hcy : (links.map (fun r => r.url)).contains "https://y.com" = false := by
    apply contains_eq_false_of_forall
    intro b hb
    obtain ⟨r, hr, rfl⟩ := List.mem_map.mp hb
    exact hy r hr
  have hfilter :
      ([mkImported (freshIds 0) now (itemX, "https://x.com"),
        mkImported (freshIds 1) now (itemY, "https://y.com")]).filter
        (fun l => !(links.map (fun r => r.url)).contains l.url) =
      [mkImported (freshIds 1) now (itemY, "https://y.com")] := by
    simp only [List.filter_cons, List.filter_nil, hux, huy, hcx, hcy,
      Bool.not_true, Bool.not_false]
    rfl
  have hres : importLinks fails freshIds now links
      (.obj (some [some itemX, some itemY])) =
      ⟨[mkImported (freshIds 1) now (itemY, "https://y.com")],
        sortByCreatedDesc
          (mkImported (freshIds 1) now (itemY, "https://y.com") :: links),
        .imported 1⟩ := by
    unfold importLinks
    rw [hinc]
    simp only [List.isEmpty_cons, Bool.false_eq_true, if_false, hfilter,
      List.any_cons, List.any_nil, hnf, Bool.or_self, List.length_cons,
      List.length_nil, List.singleton_append]
  refine ⟨?_, ?_, ?_⟩
  · rw [hres]
  · rw [hres]
    show [mkImported (freshIds 1) now (itemY, "https://y.com")].map
        (fun l => l.url) = ["https://y.com"]
    simp [huy]
  · intro r hr
    rw [hres]
    show r ∈ sortByCreatedDesc
        (mkImported (freshIds 1) now (itemY, "https://y.com") :: links)
    rw [sortByCreatedDesc]
    exact List.mem_mergeSort.mpr (List.mem_cons_of_mem _ hr)

/-- Witness for C2's amended statement at a concrete collection and a
concrete import file. -/
theorem import_merge_xy_witness :
    (importLinks (fun _ => false) (fun _ => "f") 0 [linkX]
        (.obj (some [some itemXc, some itemYc]))).outcome = .imported 1 ∧
    (importLinks (fun _ => false) (fun _ => "f") 0 [linkX]
        (.obj (some [some itemXc, some itemYc]))).written.map
      (fun l => l.url) = ["https://y.com"] :=
  ⟨(import_merge_xy (fun _ => false) (fun _ => "f") 0 [linkX] itemXc itemYc
      rfl rfl ⟨linkX, by decide, rfl⟩ (by decide) (fun _ => rfl)).1,
   (import_merge_xy (fun _ => false) (fun _ => "f") 0 [linkX] itemXc itemYc
      rfl rfl ⟨linkX, by decide, rfl⟩ (by decide) (fun _ => rfl)).2.1⟩

end RemMe
